import Mathlib

/-!
Verification development for the IMS checklist extractor
(`maintenance_IMS_AUTO.py` of the IMS-Automation repository).

The extraction pipeline `get_excel_data` is embedded shallowly:

* a worksheet is an in-memory grid of cells, each cell carrying the data
  openpyxl exposes (resolved value, bold flag, fill start-color RGB,
  1-based row/column position);
* `inputColumnsOf` embeds the header pre-pass (source lines 38-47);
* `processRow` embeds the body of the row walk (source lines 50-99),
  including the Python truthiness of the `current_category` /
  `current_task` string variables and the reuse of the local variable
  `cell_value` by the input-extraction loop (line 92);
* `processSheet` / `get_excel_data` embed the per-sheet assembly and the
  workbook loop (lines 29-109);
* `get_excel_data_from_load` / `mainOutput` embed the load-failure path
  (lines 16-24) and the caller's decision whether a JSON file is written
  (lines 143-156).

Cell values are modelled as `Option String` (`none` = empty cell); the
comparisons performed by the source (`in` on a list of header literals,
`== "Comments"`) are string comparisons, so non-string cell contents
behave like strings distinct from those literals.
-/

/-- One spreadsheet cell as exposed by the workbook reader (openpyxl):
1-based row and column position, resolved value (`none` for an empty
cell), the font's bold flag, and the fill start-color RGB string
(`none` when the fill carries no start color).  openpyxl derives
`cell.coordinate` from `row`/`col` (column letter followed by the row
number). -/
structure Cell where
  row : Nat
  col : Nat
  value : Option String
  bold : Bool
  fillRGB : Option String
deriving DecidableEq, Repr

/-- A worksheet: its title and the grid returned by `iter_rows` over the
used range, starting at row 1; each inner list holds the cells of one
row for columns 1 .. max_column. -/
structure Sheet where
  title : String
  rows : List (List Cell)
deriving DecidableEq, Repr

/-- A workbook is its ordered list of worksheets. -/
abbrev Workbook := List Sheet

/-- Coordinate key of an input entry.  The source stores the string
`cell.coordinate`; we keep the (column, row) pair that string is derived
from, `coordStr` below renders the Python string. -/
structure Coord where
  col : Nat
  row : Nat
deriving DecidableEq, Repr

/-- Fuelled helper for `columnLetter`; fuel `n` suffices for column `n`
because the recursion divides by 26 at every step. -/
def columnLetterAux : Nat → Nat → String
  | 0, _ => ""
  | _ + 1, 0 => ""
  | fuel + 1, n + 1 => columnLetterAux fuel (n / 26) ++ String.singleton (Char.ofNat (65 + n % 26))

/-- openpyxl's `get_column_letter`: 1 ↦ "A", 2 ↦ "B", …, 27 ↦ "AA". -/
def columnLetter (n : Nat) : String := columnLetterAux n n

/-- The Python coordinate string of a cell position (e.g. "B3"). -/
def coordStr (c : Coord) : String := columnLetter c.col ++ toString c.row

/-- One task dictionary (source line 71/85): name, accumulated
description, and the coordinate → value mapping of its input cells.
Two auxiliary fields record data the Python code holds in locals while
building the record: `descFrags` lists, in order, the leading-cell texts
appended by the description branch (lines 73-77), and `anchorRow` is the
value of the Python local `task_row` captured when the task was created
(lines 67/81).  Neither auxiliary field influences the computation. -/
structure TaskRecord where
  task : String
  description : String
  inputs : List (Coord × String)
  descFrags : List String
  anchorRow : Nat
deriving DecidableEq, Repr

/-- One category dictionary (source line 61): name and task list. -/
structure CategoryRecord where
  category : String
  tasks : List TaskRecord
deriving DecidableEq, Repr

/-- One sheet dictionary (source line 31): sheet title and categories. -/
structure SheetRecord where
  sheet : String
  categories : List CategoryRecord
deriving DecidableEq, Repr

/-- The mutable per-sheet state of the row walk (source lines 32-36 and
the local `task_row`).  `taskRow` is initialised to 0; the source reads
`task_row` only under the guard `current_task` is truthy, which implies
it has been assigned in the current sheet. -/
structure SheetAcc where
  categories : List CategoryRecord
  currentCategory : Option String
  currentTask : Option String
  taskRow : Nat
  commentsSection : Bool
deriving DecidableEq, Repr

/-- Python truthiness of an optional string: `None` and `""` are falsy,
every other string is truthy. -/
def truthy : Option String → Bool
  | none => false
  | some s => !(s == "")

/-- Apply `f` to the last element of a list (Python `l[-1] = f(l[-1])`
patterns; source lines 71, 74-77, 85, 93 all mutate `[-1]` entries).
On the empty list this is the identity; the source would raise
`IndexError` there, and claim C9 below proves the guards make that
unreachable. -/
def updateLast (f : α → α) : List α → List α
  | [] => []
  | a :: l =>
    match l with
    | [] => [f a]
    | _ :: _ => a :: updateLast f l

/-- Python `dict` insertion `d[k] = v`: overwrite in place when the key
exists, append otherwise. -/
def insertAssoc (k : Coord) (v : String) : List (Coord × String) → List (Coord × String)
  | [] => [(k, v)]
  | p :: rest => if p.1 = k then (k, v) :: rest else p :: insertAssoc k v rest

/-- Python `set.add`: keep the collection duplicate-free.  Only
membership in the resulting set is ever observed by the source. -/
def insertIfAbsent (x : String) (l : List String) : List String :=
  if x ∈ l then l else l ++ [x]

/-- The four input-column header literals of source line 43. -/
def labelStrings : List String :=
  ["Date Inspected by who?", "OK", "OK?", "Date Inspected by who"]

/-- Header pre-pass (source lines 38-44): every cell of the sheet whose
value is one of the four literals flags its column letter.  The source
iterates `iter_cols` (column-major); only set membership of the result
is observed, which is order-insensitive, so we fold over the cells in
grid order. -/
def colScanStep (acc : List String) (c : Cell) : List String :=
  match c.value with
  | some v => if v ∈ labelStrings then insertIfAbsent (columnLetter c.col) acc else acc
  | none => acc

def inputColumnsOf (s : Sheet) : List String :=
  s.rows.flatten.foldl colScanStep []

/-- The description-joining step of source lines 74-77: append with a
single separating space when the accumulated description is non-empty
(Python truthiness), plain assignment otherwise. -/
def descStep (d s : String) : String := if d ≠ "" then d ++ " " ++ s else s

/-- Left fold of `descStep` starting from the empty description: the
exact way the source accumulates a task's description fragments. -/
def pyJoin (l : List String) : String := l.foldl descStep ""

/-- A fresh task dictionary as appended by source lines 71/85, with the
auxiliary fields initialised. -/
def newTask (cv : String) (r : Nat) : TaskRecord :=
  { task := cv, description := "", inputs := [], descFrags := [], anchorRow := r }

/-- One iteration of the input-extraction loop (source lines 88-95),
threading the pair (categories, Python local `cell_value`).  When the
cell's column letter is in the input-column set and its row equals
`task_row`, the entry is written into the last task of the last category
and — crucially — the loop reassigns the local `cell_value` (line 92),
shadowing the leading cell's value that line 98 later compares against
"Comments". -/
def processInputCell (cols : List String) (tr : Nat)
    (p : List CategoryRecord × Option String) (cell : Cell) :
    List CategoryRecord × Option String :=
  if columnLetter cell.col ∈ cols ∧ cell.row = tr then
    (updateLast (fun c =>
        { c with tasks := updateLast (fun t =>
            { t with inputs := insertAssoc ⟨cell.col, cell.row⟩ (cell.value.getD "no input") t.inputs }) c.tasks })
      p.1,
     cell.value)
  else p

/-- The input-extraction loop restricted to its effect on the inputs
mapping of the task it targets: fold of the guarded `insertAssoc` over
the scanned cells.  `foldl_processInputCell_fst` below proves the loop
equals this action applied to the last task of the last category. -/
def extractIns (cols : List String) (tr : Nat) (cells : List Cell)
    (ins : List (Coord × String)) : List (Coord × String) :=
  cells.foldl
    (fun acc c =>
      if columnLetter c.col ∈ cols ∧ c.row = tr then
        insertAssoc ⟨c.col, c.row⟩ (c.value.getD "no input") acc
      else acc)
    ins

/-- Apply an action `F` to the inputs mapping of the last task of the
last category, leaving everything else unchanged. -/
def withLastInputs (F : List (Coord × String) → List (Coord × String))
    (cats : List CategoryRecord) : List CategoryRecord :=
  updateLast (fun c =>
    { c with tasks := updateLast (fun t => { t with inputs := F t.inputs }) c.tasks }) cats

/-- The `elif` cascade of source lines 59-85 classifying the row by its
leading cell: category (yellow fill + bold), task (bold under a truthy
category, outside a comments block), description (non-bold with a truthy
current task, outside a comments block), comment item (bold under a
truthy category, inside a comments block) — in that order.  `cv` is the
leading cell's (non-`None`) value. -/
def classifyRow (acc : SheetAcc) (lead : Cell) (cv : String) : SheetAcc :=
  if lead.fillRGB = some "FFFFFF00" ∧ lead.bold = true then
    { categories := acc.categories ++ [{ category := cv, tasks := [] }],
      currentCategory := some cv, currentTask := none,
      taskRow := acc.taskRow, commentsSection := false }
  else if lead.bold = true ∧ truthy acc.currentCategory = true ∧ acc.commentsSection = false then
    { acc with
      currentTask := some cv, taskRow := lead.row,
      categories := updateLast (fun c => { c with tasks := c.tasks ++ [newTask cv lead.row] }) acc.categories }
  else if truthy acc.currentTask = true ∧ lead.bold = false ∧ acc.commentsSection = false then
    { acc with
      categories := updateLast (fun c =>
        { c with tasks := updateLast (fun t =>
            { t with description := descStep t.description cv,
                     descFrags := t.descFrags ++ [cv] }) c.tasks }) acc.categories }
  else if lead.bold = true ∧ truthy acc.currentCategory = true ∧ acc.commentsSection = true then
    { acc with
      currentTask := some cv, taskRow := lead.row,
      categories := updateLast (fun c => { c with tasks := c.tasks ++ [newTask cv lead.row] }) acc.categories }
  else acc

/-- The input-extraction loop of source lines 87-95: when both
`current_category` and `current_task` are truthy, fold
`processInputCell` over `row[1:]` (the cells after the leading one),
threading the pair (categories, Python local `cell_value`); otherwise
leave both unchanged.  `cv` is the leading cell's value, the value the
local `cell_value` holds when the loop starts. -/
def extractPhase (cols : List String) (acc1 : SheetAcc) (cv : String) (rest : List Cell) :
    List CategoryRecord × Option String :=
  if truthy acc1.currentCategory = true ∧ truthy acc1.currentTask = true then
    rest.foldl (processInputCell cols acc1.taskRow) (acc1.categories, some cv)
  else (acc1.categories, some cv)

/-- The comments-marker check of source line 98, applied to the final
value `p.2` of the Python local `cell_value` (possibly shadowed by the
extraction loop), together with the write-back of the categories built
by the extraction loop. -/
def commentsPhase (p : List CategoryRecord × Option String) (acc1 : SheetAcc) : SheetAcc :=
  if p.2 = some "Comments" then { acc1 with categories := p.1, commentsSection := true }
  else { acc1 with categories := p.1 }

/-- The three phases of the row body in source order: classify, extract
input cells, check the comments marker. -/
def processRowAux (cols : List String) (acc : SheetAcc) (lead : Cell) (rest : List Cell)
    (cv : String) : SheetAcc :=
  commentsPhase (extractPhase cols (classifyRow acc lead cv) cv rest) (classifyRow acc lead cv)

/-- The body of the row walk for one row (source lines 50-99).  An empty
cell list cannot arise from `iter_rows` (every row tuple has
`max_column ≥ 1` cells) and is treated as a skip; a leading cell with
value `None` skips the row (lines 52-53). -/
def processRow (cols : List String) (acc : SheetAcc) (row : List Cell) : SheetAcc :=
  match row with
  | [] => acc
  | lead :: rest =>
    match lead.value with
    | none => acc
    | some cv => processRowAux cols acc lead rest cv

/-- Fresh per-sheet state (source lines 31-36). -/
def initAcc : SheetAcc :=
  { categories := [], currentCategory := none, currentTask := none,
    taskRow := 0, commentsSection := false }

/-- The row walk over a list of rows. -/
def walkState (cols : List String) (rows : List (List Cell)) : SheetAcc :=
  rows.foldl (processRow cols) initAcc

/-- Per-sheet extraction: header pre-pass, then the row walk starting at
the second row (`min_row=2`, source line 50). -/
def processSheet (s : Sheet) : SheetRecord :=
  { sheet := s.title,
    categories := (walkState (inputColumnsOf s) (s.rows.drop 1)).categories }

/-- `get_excel_data` on a successfully loaded workbook (source lines
26-109): one SheetRecord per worksheet, in workbook order. -/
def get_excel_data (wb : Workbook) : List SheetRecord := wb.map processSheet

/-- `get_excel_data` including the load step (source lines 16-24): any
load failure is caught and the function returns the empty list. -/
def get_excel_data_from_load : Except String Workbook → List SheetRecord
  | Except.error _ => []
  | Except.ok wb => get_excel_data wb

/-- The caller `main` (source lines 143-156): extract, and when the
result is empty show an error dialog and write nothing; otherwise write
the extracted data to the sibling JSON file.  `none` models "no JSON
file is written". -/
def mainOutput (load : Except String Workbook) : Option (List SheetRecord) :=
  match get_excel_data_from_load load with
  | [] => none
  | d => some d

/-! ### Concrete worksheets used by the claims -/

/-- Leading cell of row 3 of the two C1 worksheets: literal value
"Comments", bold, no fill. -/
def c1lead3 : Cell := { row := 3, col := 1, value := some "Comments", bold := true, fillRGB := none }

/-- Worksheet with an "OK" header in B1 (so column B is an input
column), a category row "Cat" at row 2, and a bold "Comments" marker at
row 3 whose neighbour B3 is empty. -/
def c1sheet : Sheet :=
  { title := "S1",
    rows := [
      [{ row := 1, col := 1, value := none, bold := false, fillRGB := none },
       { row := 1, col := 2, value := some "OK", bold := false, fillRGB := none }],
      [{ row := 2, col := 1, value := some "Cat", bold := true, fillRGB := some "FFFFFF00" },
       { row := 2, col := 2, value := none, bold := false, fillRGB := none }],
      [c1lead3,
       { row := 3, col := 2, value := none, bold := false, fillRGB := none }]] }

/-- Identical to `c1sheet` except that B1 holds "X", which is not a
header label: no input column is detected, so the extraction loop never
reassigns the local `cell_value`. -/
def c1sheetB : Sheet :=
  { title := "S1",
    rows := [
      [{ row := 1, col := 1, value := none, bold := false, fillRGB := none },
       { row := 1, col := 2, value := some "X", bold := false, fillRGB := none }],
      [{ row := 2, col := 1, value := some "Cat", bold := true, fillRGB := some "FFFFFF00" },
       { row := 2, col := 2, value := none, bold := false, fillRGB := none }],
      [c1lead3,
       { row := 3, col := 2, value := none, bold := false, fillRGB := none }]] }

/-- One-column worksheet whose column A is itself an input column: A1
holds the header label "OK", A2 starts category "Cat", and A3 is the
bold task cell "T" — which sits in an input column on its own anchor
row. -/
def c3sheet : Sheet :=
  { title := "S3",
    rows := [
      [{ row := 1, col := 1, value := some "OK", bold := false, fillRGB := none }],
      [{ row := 2, col := 1, value := some "Cat", bold := true, fillRGB := some "FFFFFF00" }],
      [{ row := 3, col := 1, value := some "T", bold := true, fillRGB := none }]] }

/-- One-column worksheet with a category at row 2, a task "T" at row 3
and a single non-bold description row whose text " x " carries leading
and trailing whitespace. -/
def c4sheet : Sheet :=
  { title := "S4",
    rows := [
      [{ row := 1, col := 1, value := none, bold := false, fillRGB := none }],
      [{ row := 2, col := 1, value := some "Cat", bold := true, fillRGB := some "FFFFFF00" }],
      [{ row := 3, col := 1, value := some "T", bold := true, fillRGB := none }],
      [{ row := 4, col := 1, value := some " x ", bold := false, fillRGB := none }]] }

/-- Worksheet with an "OK" header in B1, a category at row 2, and a
bold leading cell at row 3 whose value is the empty string, next to the
input-column cell B3 = "x". -/
def c5sheet : Sheet :=
  { title := "S5",
    rows := [
      [{ row := 1, col := 1, value := none, bold := false, fillRGB := none },
       { row := 1, col := 2, value := some "OK", bold := false, fillRGB := none }],
      [{ row := 2, col := 1, value := some "Cat", bold := true, fillRGB := some "FFFFFF00" },
       { row := 2, col := 2, value := none, bold := false, fillRGB := none }],
      [{ row := 3, col := 1, value := some "", bold := true, fillRGB := none },
       { row := 3, col := 2, value := some "x", bold := false, fillRGB := none }]] }

/-- A state with one freshly created, still empty category "Cat": the
state the walk is in right after a category row. -/
def accAfterCat : SheetAcc :=
  { categories := [{ category := "Cat", tasks := [] }],
    currentCategory := some "Cat", currentTask := none, taskRow := 0,
    commentsSection := false }

/-- The same state inside a comments block. -/
def accAfterCatFlag : SheetAcc :=
  { categories := [{ category := "Cat", tasks := [] }],
    currentCategory := some "Cat", currentTask := none, taskRow := 0,
    commentsSection := true }

/-- A bold, unfilled leading cell at row 3, column A, with text "T". -/
def taskLead : Cell := { row := 3, col := 1, value := some "T", bold := true, fillRGB := none }

/-- The remaining cell of that row: B3 = "x". -/
def taskRest : List Cell := [{ row := 3, col := 2, value := some "x", bold := false, fillRGB := none }]

/-- A bold, unfilled leading cell at row 4, column A, used to classify
one more row on top of a walk state. -/
def c9lead : Cell := { row := 4, col := 1, value := some "T2", bold := true, fillRGB := none }

/-- Drop leading and trailing whitespace characters of a character
list. -/
def trimChars (l : List Char) : List Char :=
  ((l.dropWhile Char.isWhitespace).reverse.dropWhile Char.isWhitespace).reverse

/-- Definition following the words of the spec (§3 invariant, claim C4):
the space-joined, order-preserving concatenation of the description
fragments, trimmed of leading and trailing whitespace.  Stated only to
compare the claim against the code; the code never trims. -/
def specDescription (frags : List String) : String :=
  String.mk (trimChars (String.intercalate " " frags).data)

/-- The task record the walk builds from `c1sheet`. -/
def c1task : TaskRecord :=
  { task := "Comments", description := "", inputs := [((⟨2, 3⟩ : Coord), "no input")],
    descFrags := [], anchorRow := 3 }

/-- The sheet record extracted from `c1sheet`. -/
def c1record : SheetRecord :=
  { sheet := "S1", categories := [{ category := "Cat", tasks := [c1task] }] }

/-- The task record the walk builds from `c3sheet`: its inputs are
empty although column A is an input column. -/
def c3task : TaskRecord :=
  { task := "T", description := "", inputs := [], descFrags := [], anchorRow := 3 }

/-- The sheet record extracted from `c3sheet`. -/
def c3record : SheetRecord :=
  { sheet := "S3", categories := [{ category := "Cat", tasks := [c3task] }] }

/-- The task record the walk builds from `c4sheet`: the description
keeps the whitespace of its single fragment. -/
def c4task : TaskRecord :=
  { task := "T", description := " x ", inputs := [], descFrags := [" x "], anchorRow := 3 }

/-- The sheet record extracted from `c4sheet`. -/
def c4record : SheetRecord :=
  { sheet := "S4", categories := [{ category := "Cat", tasks := [c4task] }] }

/-- The task record the walk builds from `c5sheet`: the bold leading
cell with empty-string text becomes a task, but its inputs stay empty.
-/
def c5task : TaskRecord :=
  { task := "", description := "", inputs := [], descFrags := [], anchorRow := 3 }

/-- The sheet record extracted from `c5sheet`. -/
def c5record : SheetRecord :=
  { sheet := "S5", categories := [{ category := "Cat", tasks := [c5task] }] }


/-- The invariant maintained by every row of the walk: a truthy
`current_category` means a category dictionary exists; a truthy
`current_task` means the last category holds a last task whose creation
row is the current `task_row`; every recorded input key sits on the row
of its task's creation; and every accumulated description is the
`descStep`-fold of its recorded fragments. -/
structure WalkInv (acc : SheetAcc) : Prop where
  cat_ne : truthy acc.currentCategory = true → acc.categories ≠ []
  task_last : truthy acc.currentTask = true →
    truthy acc.currentCategory = true ∧
    ∃ c, acc.categories.getLast? = some c ∧
      ∃ t, c.tasks.getLast? = some t ∧ t.anchorRow = acc.taskRow
  rows_eq : ∀ c ∈ acc.categories, ∀ t ∈ c.tasks, ∀ kv ∈ t.inputs, kv.1.row = t.anchorRow
  desc_join : ∀ c ∈ acc.categories, ∀ t ∈ c.tasks, t.description = pyJoin t.descFrags


/-! ### Helper lemmas about `updateLast` -/

theorem updateLast_cons_of_ne_nil (f : α → α) (a : α) {l : List α} (h : l ≠ []) :
    updateLast f (a :: l) = a :: updateLast f l := by
  cases l with
  | nil => exact absurd rfl h
  | cons b t => rfl

theorem updateLast_eq_nil_iff (f : α → α) (l : List α) :
    updateLast f l = [] ↔ l = [] := by
  cases l with
  | nil => simp [updateLast]
  | cons a t => cases t <;> simp [updateLast]

theorem updateLast_id (l : List α) : updateLast (fun a => a) l = l := by
  induction l with
  | nil => rfl
  | cons a t ih =>
    cases t with
    | nil => rfl
    | cons b t' => rw [updateLast_cons_of_ne_nil _ _ (by simp), ih]

theorem updateLast_comp (f g : α → α) (l : List α) :
    updateLast f (updateLast g l) = updateLast (fun a => f (g a)) l := by
  induction l with
  | nil => rfl
  | cons a t ih =>
    cases t with
    | nil => rfl
    | cons b t' =>
      have hne : updateLast g (b :: t') ≠ [] := by
        simp [updateLast_eq_nil_iff]
      rw [updateLast_cons_of_ne_nil g a (by simp), updateLast_cons_of_ne_nil f a hne, ih,
        updateLast_cons_of_ne_nil _ a (by simp)]

theorem updateLast_concat (f : α → α) (l : List α) (x : α) :
    updateLast f (l ++ [x]) = l ++ [f x] := by
  induction l with
  | nil => rfl
  | cons a t ih =>
    rw [List.cons_append, updateLast_cons_of_ne_nil f a (by simp), ih]
    rfl

theorem getLast?_updateLast (f : α → α) (l : List α) :
    (updateLast f l).getLast? = l.getLast?.map f := by
  induction l with
  | nil => rfl
  | cons a t ih =>
    cases t with
    | nil => rfl
    | cons b t' =>
      rw [updateLast_cons_of_ne_nil f a (by simp)]
      have hne : updateLast f (b :: t') ≠ [] := by simp [updateLast_eq_nil_iff]
      cases hEq : updateLast f (b :: t') with
      | nil => exact absurd hEq hne
      | cons c u =>
        show (c :: u).getLast? = Option.map f (b :: t').getLast?
        rw [← hEq, ih]

theorem mem_updateLast {f : α → α} {l : List α} {y : α} (h : y ∈ updateLast f l) :
    y ∈ l ∨ ∃ x, l.getLast? = some x ∧ y = f x := by
  induction l with
  | nil => simp [updateLast] at h
  | cons a t ih =>
    cases t with
    | nil =>
      simp [updateLast] at h
      exact Or.inr ⟨a, by simp, h⟩
    | cons b t' =>
      rw [updateLast_cons_of_ne_nil f a (by simp)] at h
      rcases List.mem_cons.mp h with h1 | h2
      · exact Or.inl (by simp [h1])
      · rcases ih h2 with h3 | ⟨x, hx, hy⟩
        · exact Or.inl (List.mem_cons_of_mem _ h3)
        · exact Or.inr ⟨x, hx, hy⟩

/-! ### Helper lemmas about `insertAssoc` and `extractIns` -/

theorem mem_insertAssoc_self (k : Coord) (v : String) (l : List (Coord × String)) :
    (k, v) ∈ insertAssoc k v l := by
  induction l with
  | nil => simp [insertAssoc]
  | cons p t ih =>
    by_cases h : p.1 = k <;> simp [insertAssoc, h, ih]

theorem mem_insertAssoc_of_ne {kv : Coord × String} {l : List (Coord × String)}
    (h : kv ∈ l) (k : Coord) (v : String) (hne : kv.1 ≠ k) : kv ∈ insertAssoc k v l := by
  induction l with
  | nil => simp at h
  | cons p t ih =>
    rcases List.mem_cons.mp h with h1 | h2
    · subst h1
      simp only [insertAssoc, if_neg hne]
      exact List.mem_cons_self _ _
    · by_cases hp : p.1 = k
      · simp only [insertAssoc, if_pos hp]
        exact List.mem_cons_of_mem _ h2
      · simp only [insertAssoc, if_neg hp]
        exact List.mem_cons_of_mem _ (ih h2)

theorem mem_insertAssoc {kv : Coord × String} {k : Coord} {v : String}
    {l : List (Coord × String)} (h : kv ∈ insertAssoc k v l) : kv = (k, v) ∨ kv ∈ l := by
  induction l with
  | nil => simpa [insertAssoc] using h
  | cons p t ih =>
    by_cases hp : p.1 = k
    · simp [insertAssoc, hp] at h
      rcases h with h1 | h2
      · exact Or.inl (by simp [h1])
      · exact Or.inr (List.mem_cons_of_mem _ h2)
    · simp only [insertAssoc, if_neg hp] at h
      rcases List.mem_cons.mp h with h1 | h2
      · exact Or.inr (by simp [h1])
      · rcases ih h2 with h3 | h4
        · exact Or.inl h3
        · exact Or.inr (List.mem_cons_of_mem _ h4)

theorem mem_extractIns_row {cols : List String} {tr : Nat} :
    ∀ {cells : List Cell} {ins : List (Coord × String)} {kv : Coord × String},
      kv ∈ extractIns cols tr cells ins → kv ∈ ins ∨ kv.1.row = tr := by
  intro cells
  induction cells with
  | nil => intro ins kv h; exact Or.inl (by simpa [extractIns] using h)
  | cons c rest ih =>
    intro ins kv h
    rw [extractIns, List.foldl_cons] at h
    by_cases hg : columnLetter c.col ∈ cols ∧ c.row = tr
    · rw [if_pos hg] at h
      rcases ih h with h1 | h2
      · rcases mem_insertAssoc h1 with h3 | h4
        · right; rw [h3]; exact hg.2
        · exact Or.inl h4
      · exact Or.inr h2
    · rw [if_neg hg] at h
      exact ih h

theorem extractIns_mem_mono {cols : List String} {tr : Nat} {kv : Coord × String} :
    ∀ {cells : List Cell} {ins : List (Coord × String)},
      kv ∈ ins → (∀ c ∈ cells, (⟨c.col, c.row⟩ : Coord) ≠ kv.1) →
      kv ∈ extractIns cols tr cells ins := by
  intro cells
  induction cells with
  | nil => intro ins h _; simpa [extractIns] using h
  | cons c rest ih =>
    intro ins h hfresh
    rw [extractIns, List.foldl_cons]
    by_cases hg : columnLetter c.col ∈ cols ∧ c.row = tr
    · rw [if_pos hg]
      exact ih (mem_insertAssoc_of_ne h _ _ (fun he => hfresh c (by simp) he.symm))
        (fun c' hc' => hfresh c' (List.mem_cons_of_mem _ hc'))
    · rw [if_neg hg]
      exact ih h (fun c' hc' => hfresh c' (List.mem_cons_of_mem _ hc'))

theorem mem_extractIns_self {cols : List String} {tr : Nat} :
    ∀ {cells : List Cell} (ins : List (Coord × String)) {target : Cell},
      target ∈ cells → columnLetter target.col ∈ cols → target.row = tr →
      (∀ c ∈ cells, c.row = tr) → (cells.map Cell.col).Nodup →
      ((⟨target.col, target.row⟩ : Coord), target.value.getD "no input") ∈
        extractIns cols tr cells ins := by
  intro cells
  induction cells with
  | nil => intro ins target h; simp at h
  | cons c rest ih =>
    intro ins target hmem hcol hrow hrows hnod
    rw [extractIns, List.foldl_cons]
    rcases List.mem_cons.mp hmem with h1 | h2
    · subst h1
      rw [if_pos ⟨hcol, hrow⟩]
      refine extractIns_mem_mono (mem_insertAssoc_self _ _ _) ?_
      intro c' hc' he
      have hcols : target.col ∉ rest.map Cell.col := by
        have := List.nodup_cons.mp hnod
        exact this.1
      exact hcols (by
        have : c'.col = target.col := congrArg Coord.col he
        rw [← this]
        exact List.mem_map_of_mem Cell.col hc')
    · have hrows' : ∀ c' ∈ rest, c'.row = tr := fun c' hc' => hrows c' (List.mem_cons_of_mem _ hc')
      have hnod' : (rest.map Cell.col).Nodup := (List.nodup_cons.mp (by simpa using hnod)).2
      by_cases hg : columnLetter c.col ∈ cols ∧ c.row = tr
      · rw [if_pos hg]
        exact ih _ h2 hcol hrow hrows' hnod'
      · rw [if_neg hg]
        exact ih _ h2 hcol hrow hrows' hnod'

/-! ### The extraction loop acts on the last task of the last category -/

theorem withLastInputs_id (cats : List CategoryRecord) :
    withLastInputs (fun ins => ins) cats = cats := by
  have h1 : (fun t : TaskRecord => { t with inputs := t.inputs }) = fun t => t := rfl
  have h2 : (fun c : CategoryRecord =>
      { c with tasks := updateLast (fun t => { t with inputs := t.inputs }) c.tasks }) =
      fun c => c := by
    funext c
    rw [h1, updateLast_id]
  rw [withLastInputs, h2, updateLast_id]

theorem withLastInputs_comp (F G : List (Coord × String) → List (Coord × String))
    (cats : List CategoryRecord) :
    withLastInputs F (withLastInputs G cats) = withLastInputs (fun ins => F (G ins)) cats := by
  rw [withLastInputs, withLastInputs, withLastInputs, updateLast_comp]
  congr 1
  funext c
  show ({ c with tasks := updateLast (fun t => { t with inputs := F t.inputs }) (updateLast (fun t => { t with inputs := G t.inputs }) c.tasks) } : CategoryRecord) = _
  rw [updateLast_comp]

theorem foldl_processInputCell_fst (cols : List String) (tr : Nat) :
    ∀ (cells : List Cell) (cats : List CategoryRecord) (cv : Option String),
      (cells.foldl (processInputCell cols tr) (cats, cv)).1 =
        withLastInputs (fun ins => extractIns cols tr cells ins) cats := by
  intro cells
  induction cells with
  | nil =>
    intro cats cv
    show cats = withLastInputs (fun ins => ins) cats
    rw [withLastInputs_id]
  | cons c rest ih =>
    intro cats cv
    rw [List.foldl_cons]
    by_cases hg : columnLetter c.col ∈ cols ∧ c.row = tr
    · rw [show processInputCell cols tr (cats, cv) c =
          (withLastInputs (fun ins =>
              insertAssoc ⟨c.col, c.row⟩ (c.value.getD "no input") ins) cats,
            c.value) by
            simp [processInputCell, if_pos hg, withLastInputs]]
      rw [ih, withLastInputs_comp]
      congr 1
      funext ins
      rw [show extractIns cols tr (c :: rest) ins =
          extractIns cols tr rest (insertAssoc ⟨c.col, c.row⟩ (c.value.getD "no input") ins) by
            rw [extractIns, List.foldl_cons, if_pos hg]; rfl]
    · rw [show processInputCell cols tr (cats, cv) c = (cats, cv) by
            simp [processInputCell, if_neg hg]]
      rw [ih]
      congr 1
      funext ins
      rw [show extractIns cols tr (c :: rest) ins = extractIns cols tr rest ins by
            rw [extractIns, List.foldl_cons, if_neg hg]; rfl]

/-! ### Description joining and `getLast?` membership -/

theorem pyJoin_concat (l : List String) (s : String) :
    pyJoin (l ++ [s]) = descStep (pyJoin l) s := by
  rw [pyJoin, pyJoin, List.foldl_append]
  rfl

theorem mem_of_getLast?_eq : ∀ {l : List α} {x : α}, l.getLast? = some x → x ∈ l := by
  intro l
  induction l with
  | nil => intro x h; simp at h
  | cons a t ih =>
    intro x h
    cases t with
    | nil =>
      simp at h
      simp [h]
    | cons b t' =>
      exact List.mem_cons_of_mem _ (ih h)

/-! ### The row-walk invariant -/

theorem exists_getLast?_of_ne_nil : ∀ {l : List α}, l ≠ [] → ∃ x, l.getLast? = some x := by
  intro l
  induction l with
  | nil => intro h; exact absurd rfl h
  | cons a t ih =>
    intro _
    cases t with
    | nil => exact ⟨a, rfl⟩
    | cons b t' =>
      rcases ih (by simp) with ⟨x, hx⟩
      exact ⟨x, hx⟩

theorem WalkInv_initAcc : WalkInv initAcc := by
  constructor
  · intro h; simp [initAcc, truthy] at h
  · intro h; simp [initAcc, truthy] at h
  · intro c hc; simp [initAcc] at hc
  · intro c hc; simp [initAcc] at hc

theorem WalkInv_classifyRow {acc : SheetAcc} (hI : WalkInv acc) (lead : Cell) (cv : String) :
    WalkInv (classifyRow acc lead cv) := by
  rw [classifyRow]
  split_ifs with h1 h2 h3 h4
  · -- category branch (lines 59-63)
    constructor
    · intro _; simp
    · intro h; simp [truthy] at h
    · intro c hc t ht kv hkv
      rcases List.mem_append.mp hc with hc1 | hc2
      · exact hI.rows_eq c hc1 t ht kv hkv
      · simp at hc2
        rw [hc2] at ht
        simp at ht
    · intro c hc t ht
      rcases List.mem_append.mp hc with hc1 | hc2
      · exact hI.desc_join c hc1 t ht
      · simp at hc2
        rw [hc2] at ht
        simp at ht
  · -- task branch (lines 64-71)
    have hcats : acc.categories ≠ [] := hI.cat_ne h2.2.1
    rcases exists_getLast?_of_ne_nil hcats with ⟨c0, hc0⟩
    constructor
    · intro _
      simp only []
      rw [Ne, updateLast_eq_nil_iff]
      exact hcats
    · intro _
      refine ⟨h2.2.1, ?_⟩
      refine ⟨_, by rw [getLast?_updateLast, hc0]; rfl, ?_⟩
      refine ⟨newTask cv lead.row, ?_, rfl⟩
      show (c0.tasks ++ [newTask cv lead.row]).getLast? = some (newTask cv lead.row)
      rw [List.getLast?_concat]
    · intro c hc t ht kv hkv
      rcases mem_updateLast hc with hc1 | ⟨x, hx, hcx⟩
      · exact hI.rows_eq c hc1 t ht kv hkv
      · rw [hc0] at hx
        injection hx with hx
        subst hx
        subst hcx
        rcases List.mem_append.mp ht with ht1 | ht2
        · exact hI.rows_eq c0 (mem_of_getLast?_eq hc0) t ht1 kv hkv
        · simp at ht2
          rw [ht2] at hkv
          simp [newTask] at hkv
    · intro c hc t ht
      rcases mem_updateLast hc with hc1 | ⟨x, hx, hcx⟩
      · exact hI.desc_join c hc1 t ht
      · rw [hc0] at hx
        injection hx with hx
        subst hx
        subst hcx
        rcases List.mem_append.mp ht with ht1 | ht2
        · exact hI.desc_join c0 (mem_of_getLast?_eq hc0) t ht1
        · simp at ht2
          rw [ht2]
          rfl
  · -- description branch (lines 72-77)
    rcases hI.task_last h3.1 with ⟨hcat, c0, hc0, t0, ht0, hanchor⟩
    constructor
    · intro h
      simp only []
      rw [Ne, updateLast_eq_nil_iff]
      exact hI.cat_ne h
    · intro h
      refine ⟨hcat, ?_⟩
      refine ⟨_, by rw [getLast?_updateLast, hc0]; rfl, ?_⟩
      refine ⟨{ t0 with description := descStep t0.description cv, descFrags := t0.descFrags ++ [cv] }, by rw [getLast?_updateLast, ht0]; rfl, hanchor⟩
    · intro c hc t ht kv hkv
      rcases mem_updateLast hc with hc1 | ⟨x, hx, hcx⟩
      · exact hI.rows_eq c hc1 t ht kv hkv
      · rw [hc0] at hx
        injection hx with hx
        subst hx
        subst hcx
        rcases mem_updateLast ht with ht1 | ⟨y, hy, hty⟩
        · exact hI.rows_eq c0 (mem_of_getLast?_eq hc0) t ht1 kv hkv
        · subst hty
          exact hI.rows_eq c0 (mem_of_getLast?_eq hc0) y (mem_of_getLast?_eq hy) kv hkv
    · intro c hc t ht
      rcases mem_updateLast hc with hc1 | ⟨x, hx, hcx⟩
      · exact hI.desc_join c hc1 t ht
      · rw [hc0] at hx
        injection hx with hx
        subst hx
        subst hcx
        rcases mem_updateLast ht with ht1 | ⟨y, hy, hty⟩
        · exact hI.desc_join c0 (mem_of_getLast?_eq hc0) t ht1
        · subst hty
          show descStep y.description cv = pyJoin (y.descFrags ++ [cv])
          rw [pyJoin_concat, hI.desc_join c0 (mem_of_getLast?_eq hc0) y (mem_of_getLast?_eq hy)]
  · -- comment-item branch (lines 78-85)
    have hcats : acc.categories ≠ [] := hI.cat_ne h4.2.1
    rcases exists_getLast?_of_ne_nil hcats with ⟨c0, hc0⟩
    constructor
    · intro _
      simp only []
      rw [Ne, updateLast_eq_nil_iff]
      exact hcats
    · intro _
      refine ⟨h4.2.1, ?_⟩
      refine ⟨_, by rw [getLast?_updateLast, hc0]; rfl, ?_⟩
      refine ⟨newTask cv lead.row, ?_, rfl⟩
      show (c0.tasks ++ [newTask cv lead.row]).getLast? = some (newTask cv lead.row)
      rw [List.getLast?_concat]
    · intro c hc t ht kv hkv
      rcases mem_updateLast hc with hc1 | ⟨x, hx, hcx⟩
      · exact hI.rows_eq c hc1 t ht kv hkv
      · rw [hc0] at hx
        injection hx with hx
        subst hx
        subst hcx
        rcases List.mem_append.mp ht with ht1 | ht2
        · exact hI.rows_eq c0 (mem_of_getLast?_eq hc0) t ht1 kv hkv
        · simp at ht2
          rw [ht2] at hkv
          simp [newTask] at hkv
    · intro c hc t ht
      rcases mem_updateLast hc with hc1 | ⟨x, hx, hcx⟩
      · exact hI.desc_join c hc1 t ht
      · rw [hc0] at hx
        injection hx with hx
        subst hx
        subst hcx
        rcases List.mem_append.mp ht with ht1 | ht2
        · exact hI.desc_join c0 (mem_of_getLast?_eq hc0) t ht1
        · simp at ht2
          rw [ht2]
          rfl
  · -- fallthrough: no-op
    exact hI

theorem WalkInv_withLastInputs {acc1 : SheetAcc} (hI : WalkInv acc1) (cols : List String)
    (cells : List Cell) (hT : truthy acc1.currentTask = true) :
    WalkInv { acc1 with
      categories := withLastInputs (fun ins => extractIns cols acc1.taskRow cells ins) acc1.categories } := by
  rcases hI.task_last hT with ⟨hcat, c0, hc0, t0, ht0, hanchor⟩
  constructor
  · intro h
    simp only []
    rw [withLastInputs, Ne, updateLast_eq_nil_iff]
    exact hI.cat_ne h
  · intro _
    refine ⟨hcat, ?_⟩
    refine ⟨_, by rw [withLastInputs, getLast?_updateLast, hc0]; rfl, ?_⟩
    refine ⟨{ t0 with inputs := extractIns cols acc1.taskRow cells t0.inputs }, by rw [getLast?_updateLast, ht0]; rfl, hanchor⟩
  · intro c hc t ht kv hkv
    rcases mem_updateLast hc with hc1 | ⟨x, hx, hcx⟩
    · exact hI.rows_eq c hc1 t ht kv hkv
    · rw [hc0] at hx
      injection hx with hx
      subst hx
      subst hcx
      rcases mem_updateLast ht with ht1 | ⟨y, hy, hty⟩
      · exact hI.rows_eq c0 (mem_of_getLast?_eq hc0) t ht1 kv hkv
      · subst hty
        rcases mem_extractIns_row hkv with hkv1 | hkv2
        · exact hI.rows_eq c0 (mem_of_getLast?_eq hc0) y (mem_of_getLast?_eq hy) kv hkv1
        · rw [hkv2]
          rw [ht0] at hy
          injection hy with hy
          subst hy
          exact hanchor.symm
  · intro c hc t ht
    rcases mem_updateLast hc with hc1 | ⟨x, hx, hcx⟩
    · exact hI.desc_join c hc1 t ht
    · rw [hc0] at hx
      injection hx with hx
      subst hx
      subst hcx
      rcases mem_updateLast ht with ht1 | ⟨y, hy, hty⟩
      · exact hI.desc_join c0 (mem_of_getLast?_eq hc0) t ht1
      · subst hty
        exact hI.desc_join c0 (mem_of_getLast?_eq hc0) y (mem_of_getLast?_eq hy)

/-- The invariant only reads the `categories`, `currentCategory`,
`currentTask` and `taskRow` fields, so any change of the comments flag
preserves it. -/
theorem WalkInv_setFlag {acc : SheetAcc} (hI : WalkInv acc) (b : Bool) :
    WalkInv { acc with commentsSection := b } :=
  ⟨hI.cat_ne, hI.task_last, hI.rows_eq, hI.desc_join⟩

theorem WalkInv_processRowAux {acc : SheetAcc} (hI : WalkInv acc) (cols : List String)
    (lead : Cell) (rest : List Cell) (cv : String) :
    WalkInv (processRowAux cols acc lead rest cv) := by
  have h1 : WalkInv (classifyRow acc lead cv) := WalkInv_classifyRow hI lead cv
  have h2 : WalkInv { classifyRow acc lead cv with
      categories := (extractPhase cols (classifyRow acc lead cv) cv rest).1 } := by
    rw [extractPhase]
    split_ifs with hg
    · rw [foldl_processInputCell_fst]
      exact WalkInv_withLastInputs h1 cols rest hg.2
    · exact ⟨h1.cat_ne, h1.task_last, h1.rows_eq, h1.desc_join⟩
  rw [processRowAux, commentsPhase]
  split_ifs with hc
  · exact ⟨h2.cat_ne, h2.task_last, h2.rows_eq, h2.desc_join⟩
  · exact h2

theorem WalkInv_processRow {acc : SheetAcc} (hI : WalkInv acc) (cols : List String)
    (row : List Cell) : WalkInv (processRow cols acc row) := by
  cases row with
  | nil => exact hI
  | cons lead rest =>
    rw [processRow]
    cases hv : lead.value with
    | none => exact hI
    | some cv => exact WalkInv_processRowAux hI cols lead rest cv

theorem WalkInv_walkState (cols : List String) (rows : List (List Cell)) :
    WalkInv (walkState cols rows) := by
  rw [walkState]
  induction rows using List.reverseRecOn with
  | nil => exact WalkInv_initAcc
  | append_singleton rs r ih =>
    rw [List.foldl_append, List.foldl_cons, List.foldl_nil]
    exact WalkInv_processRow ih cols r

/-! ### Equations for the task branch of the row walk -/

theorem truthy_some_iff (s : String) : truthy (some s) = true ↔ s ≠ "" := by
  simp [truthy]

theorem processRow_cons_some (cols : List String) (acc : SheetAcc) (lead : Cell)
    (rest : List Cell) (cv : String) (hv : lead.value = some cv) :
    processRow cols acc (lead :: rest) = processRowAux cols acc lead rest cv := by
  simp only [processRow, hv]

theorem commentsPhase_categories (p : List CategoryRecord × Option String) (acc1 : SheetAcc) :
    (commentsPhase p acc1).categories = p.1 := by
  rw [commentsPhase]
  split_ifs <;> rfl

theorem commentsPhase_currentTask (p : List CategoryRecord × Option String) (acc1 : SheetAcc) :
    (commentsPhase p acc1).currentTask = acc1.currentTask := by
  rw [commentsPhase]
  split_ifs <;> rfl

/-- A bold leading cell whose fill is not the category marker, under a
truthy current category, always takes one of the two task-appending
branches (source lines 64-71 and 78-85), whichever the comments flag
selects; both produce the same state. -/
theorem classifyRow_task {acc : SheetAcc} {lead : Cell} (cv : String)
    (hb : lead.bold = true) (hf : lead.fillRGB ≠ some "FFFFFF00")
    (hcat : truthy acc.currentCategory = true) :
    classifyRow acc lead cv =
      { acc with
        currentTask := some cv, taskRow := lead.row,
        categories := updateLast (fun c => { c with tasks := c.tasks ++ [newTask cv lead.row] }) acc.categories } := by
  rw [classifyRow]
  rw [if_neg (fun h => hf h.1)]
  by_cases hflag : acc.commentsSection = true
  · rw [if_neg (fun h => by rw [hflag] at h; exact absurd h.2.2 (by simp))]
    rw [if_neg (fun h => by rw [hb] at h; exact absurd h.2.1 (by simp))]
    rw [if_pos ⟨hb, hcat, hflag⟩]
  · rw [if_pos ⟨hb, hcat, by simpa using hflag⟩]

/-- The full effect of a task row on the categories: a fresh task named
by the leading cell's text, anchored to the leading cell's row, is
appended to the last category; its inputs are the extraction fold over
the remaining cells of the row when the task name is truthy (non-empty)
and stay empty otherwise. -/
theorem processRow_task_branch (cols : List String) {acc : SheetAcc} {lead : Cell}
    (rest : List Cell) (cv : String)
    (hv : lead.value = some cv) (hb : lead.bold = true)
    (hf : lead.fillRGB ≠ some "FFFFFF00")
    (hcat : truthy acc.currentCategory = true) :
    (processRow cols acc (lead :: rest)).categories =
      updateLast (fun c => { c with tasks := c.tasks ++
          [{ task := cv, description := "", inputs := if cv ≠ "" then extractIns cols lead.row rest [] else [], descFrags := [], anchorRow := lead.row }] })
        acc.categories ∧
    (processRow cols acc (lead :: rest)).currentTask = some cv := by
  rw [processRow_cons_some cols acc lead rest cv hv, processRowAux,
    classifyRow_task cv hb hf hcat]
  refine ⟨?_, by rw [commentsPhase_currentTask]⟩
  rw [commentsPhase_categories, extractPhase]
  by_cases hcv : cv = ""
  · subst hcv
    rw [if_neg (fun h => by rw [truthy_some_iff] at h; exact absurd h.2 (by simp))]
    rw [if_neg (by simp)]
    rfl
  · rw [if_pos ⟨hcat, (truthy_some_iff cv).mpr hcv⟩]
    rw [foldl_processInputCell_fst]
    rw [if_pos hcv]
    rw [withLastInputs, updateLast_comp]
    congr 1
    funext c
    show ({ c with tasks := updateLast (fun t => { t with inputs := extractIns cols lead.row rest t.inputs }) (c.tasks ++ [newTask cv lead.row]) } : CategoryRecord) = _
    rw [updateLast_concat]
    rfl

/-! ### Characterisation of the header pre-pass -/

theorem mem_insertIfAbsent {x y : String} {l : List String} :
    y ∈ insertIfAbsent x l ↔ y = x ∨ y ∈ l := by
  rw [insertIfAbsent]
  split_ifs with h
  · constructor
    · exact Or.inr
    · rintro (rfl | h2)
      · exact h
      · exact h2
  · rw [List.mem_append]
    simp [or_comm]

theorem nodup_insertIfAbsent (x : String) {l : List String} (h : l.Nodup) :
    (insertIfAbsent x l).Nodup := by
  rw [insertIfAbsent]
  split_ifs with hx
  · exact h
  · simpa [List.nodup_append] using ⟨h, hx⟩

theorem colScanStep_none {acc : List String} {c : Cell} (h : c.value = none) :
    colScanStep acc c = acc := by
  rw [colScanStep, h]

theorem colScanStep_some {acc : List String} {c : Cell} {v : String} (h : c.value = some v) :
    colScanStep acc c = if v ∈ labelStrings then insertIfAbsent (columnLetter c.col) acc else acc := by
  rw [colScanStep, h]

theorem mem_colScan_foldl :
    ∀ (cells : List Cell) (init : List String) (L : String),
      L ∈ cells.foldl colScanStep init ↔
        L ∈ init ∨ ∃ c ∈ cells, (∃ v, c.value = some v ∧ v ∈ labelStrings) ∧ columnLetter c.col = L := by
  intro cells
  induction cells with
  | nil => intro init L; simp
  | cons c rest ih =>
    intro init L
    rw [List.foldl_cons, ih]
    constructor
    · rintro (hL | ⟨c', hc', hm, hcol⟩)
      · cases hv : c.value with
        | none => rw [colScanStep_none hv] at hL; exact Or.inl hL
        | some v =>
          rw [colScanStep_some hv] at hL
          by_cases hlab : v ∈ labelStrings
          · rw [if_pos hlab] at hL
            rcases mem_insertIfAbsent.mp hL with h1 | h2
            · exact Or.inr ⟨c, by simp, ⟨v, hv, hlab⟩, h1.symm⟩
            · exact Or.inl h2
          · rw [if_neg hlab] at hL
            exact Or.inl hL
      · exact Or.inr ⟨c', List.mem_cons_of_mem _ hc', hm, hcol⟩
    · rintro (hL | ⟨c', hc', ⟨v, hv, hlab⟩, hcol⟩)
      · left
        cases hv : c.value with
        | none => rw [colScanStep_none hv]; exact hL
        | some v =>
          rw [colScanStep_some hv]
          by_cases hlab : v ∈ labelStrings
          · rw [if_pos hlab]
            exact mem_insertIfAbsent.mpr (Or.inr hL)
          · rw [if_neg hlab]
            exact hL
      · rcases List.mem_cons.mp hc' with h1 | h2
        · subst h1
          left
          rw [colScanStep_some hv, if_pos hlab]
          exact mem_insertIfAbsent.mpr (Or.inl hcol.symm)
        · exact Or.inr ⟨c', h2, ⟨v, hv, hlab⟩, hcol⟩

theorem nodup_colScan_foldl :
    ∀ (cells : List Cell) (init : List String), init.Nodup →
      (cells.foldl colScanStep init).Nodup := by
  intro cells
  induction cells with
  | nil => intro init h; exact h
  | cons c rest ih =>
    intro init h
    rw [List.foldl_cons]
    refine ih _ ?_
    cases hv : c.value with
    | none => rw [colScanStep_none hv]; exact h
    | some v =>
      rw [colScanStep_some hv]
      by_cases hlab : v ∈ labelStrings
      · rw [if_pos hlab]
        exact nodup_insertIfAbsent _ h
      · rw [if_neg hlab]
        exact h


/-! ### Claims -/

/-- C1 (code bug in the source): the claim says a leading cell equal to
"Comments" always sets the comments flag, regardless of any input-cell
extraction on the same row.  On `c1sheet` the leading cell of row 3 is
literally "Comments", yet the flag is still false after the walk: the
extraction loop reassigned the Python local `cell_value` (source line
92, here the empty B3, i.e. `None`) before the check of line 98 read
it.  On `c1sheetB` — identical rows except that no input column is
detected — the same "Comments" cell does set the flag, isolating the
shadowing as the cause. -/
theorem c1_comments_marker_shadowed :
    c1lead3.value = some "Comments" ∧
    (walkState (inputColumnsOf c1sheet) (c1sheet.rows.drop 1)).commentsSection = false ∧
    (walkState (inputColumnsOf c1sheetB) (c1sheetB.rows.drop 1)).commentsSection = true :=
  ⟨rfl, by decide, by decide⟩

/-- C2: for every TaskRecord produced by extraction, every coordinate
key in its inputs mapping has a row component equal to the row the task
was anchored to (the Python `task_row` captured when the task-
classifying cell was found). -/
theorem c2_inputs_row_eq_anchor (wb : Workbook) (sr : SheetRecord)
    (hs : sr ∈ get_excel_data wb) (c : CategoryRecord) (hc : c ∈ sr.categories)
    (t : TaskRecord) (ht : t ∈ c.tasks) (kv : Coord × String) (hkv : kv ∈ t.inputs) :
    kv.1.row = t.anchorRow := by
  rcases List.mem_map.mp hs with ⟨s, hsw, hsr⟩
  subst hsr
  exact (WalkInv_walkState (inputColumnsOf s) (s.rows.drop 1)).rows_eq c hc t ht kv hkv

theorem c2_inputs_row_eq_anchor_witness :
    ((⟨2, 3⟩ : Coord), "no input").1.row = c1task.anchorRow :=
  c2_inputs_row_eq_anchor [c1sheet] c1record (by decide)
    { category := "Cat", tasks := [c1task] } (by decide)
    c1task (by decide) ((⟨2, 3⟩ : Coord), "no input") (by decide)

/-- C3 counterexample: on `c3sheet` the letter "A" is a detected input
column (A1 holds "OK") and the task cell of the anchor row 3 sits in
column A with the non-empty value "T", so the claim requires the entry
(A3 ↦ "T") in the inputs of task "T"; the extracted task has empty
inputs, because the loop of source line 88 scans `row[1:]` and never
visits the first column. -/
theorem c3_first_column_never_collected :
    "A" ∈ inputColumnsOf c3sheet ∧ columnLetter 1 = "A" ∧
    get_excel_data [c3sheet] = [c3record] ∧ c3task.inputs = [] :=
  ⟨by decide, rfl, by decide, rfl⟩

/-- C3 as amended: when a task is classified on its anchor row with a
non-empty name, its inputs mapping receives an entry for every cell of
that row other than the leading (first-column) cell whose column letter
is in the input-column set — the value being the resolved content when
present and "no input" when the cell is empty. -/
theorem c3_anchor_row_inputs_collected (cols : List String) (acc : SheetAcc)
    (lead : Cell) (rest : List Cell) (cv : String)
    (hv : lead.value = some cv) (hb : lead.bold = true)
    (hf : lead.fillRGB ≠ some "FFFFFF00")
    (hcat : truthy acc.currentCategory = true) (hne : acc.categories ≠ [])
    (hcv : cv ≠ "")
    (hrows : ∀ c ∈ rest, c.row = lead.row) (hnod : (rest.map Cell.col).Nodup) :
    ∃ cat, (processRow cols acc (lead :: rest)).categories.getLast? = some cat ∧
      ∃ t, cat.tasks.getLast? = some t ∧ t.task = cv ∧ t.anchorRow = lead.row ∧
        ∀ cell ∈ rest, columnLetter cell.col ∈ cols →
          ((⟨cell.col, cell.row⟩ : Coord), cell.value.getD "no input") ∈ t.inputs := by
  rcases processRow_task_branch cols rest cv hv hb hf hcat with ⟨hcats, _⟩
  rcases exists_getLast?_of_ne_nil hne with ⟨c0, hc0⟩
  refine ⟨_, by rw [hcats, getLast?_updateLast, hc0]; rfl, ?_⟩
  refine ⟨_, List.getLast?_concat _, rfl, rfl, ?_⟩
  intro cell hcell hcol
  rw [if_pos hcv]
  have hrow := hrows cell hcell
  rw [hrow]
  have := @mem_extractIns_self cols lead.row rest [] cell hcell hcol hrow hrows hnod
  rw [hrow] at this
  exact this

theorem c3_anchor_row_inputs_collected_witness :
    ∃ cat, (processRow ["B"] accAfterCat (taskLead :: taskRest)).categories.getLast? = some cat ∧
      ∃ t, cat.tasks.getLast? = some t ∧ t.task = "T" ∧ t.anchorRow = taskLead.row ∧
        ∀ cell ∈ taskRest, columnLetter cell.col ∈ ["B"] →
          ((⟨cell.col, cell.row⟩ : Coord), cell.value.getD "no input") ∈ t.inputs :=
  c3_anchor_row_inputs_collected ["B"] accAfterCat taskLead taskRest "T"
    rfl rfl (by decide) (by decide) (by decide) (by decide) (by decide) (by decide)

/-- C4 counterexample: on `c4sheet` the only non-bold row after the
anchor of task "T" carries the text " x ", so the claim requires the
description to be the trimmed space-join "x"; the code stores " x "
verbatim — it never trims. -/
theorem c4_description_not_trimmed :
    get_excel_data [c4sheet] = [c4record] ∧ c4task.descFrags = [" x "] ∧
    specDescription c4task.descFrags = "x" ∧ c4task.description = " x " ∧
    c4task.description ≠ specDescription c4task.descFrags :=
  ⟨by decide, rfl, by decide, rfl, by decide⟩

/-- C4 as amended: every extracted description equals the `descStep`
left fold (single-space join where an empty accumulated description is
replaced rather than joined, and with no trimming) of the recorded
fragments — the leading-cell texts of exactly those non-blank, non-bold
rows that the walk consumed for this task outside a comments block
while the task name was truthy. -/
theorem c4_description_is_joined_fragments (wb : Workbook) (sr : SheetRecord)
    (hs : sr ∈ get_excel_data wb) (c : CategoryRecord) (hc : c ∈ sr.categories)
    (t : TaskRecord) (ht : t ∈ c.tasks) :
    t.description = pyJoin t.descFrags := by
  rcases List.mem_map.mp hs with ⟨s, hsw, hsr⟩
  subst hsr
  exact (WalkInv_walkState (inputColumnsOf s) (s.rows.drop 1)).desc_join c hc t ht

theorem c4_description_is_joined_fragments_witness :
    c4task.description = pyJoin c4task.descFrags :=
  c4_description_is_joined_fragments [c4sheet] c4record (by decide)
    { category := "Cat", tasks := [c4task] } (by decide) c4task (by decide)

/-- C5 counterexample: on `c5sheet` the leading cell of row 3 is bold,
not category-classified, and category "Cat" is active, so the claim
requires a TaskRecord with input-cell extraction run for the row: the
extraction fold over the rest of the row would collect (B3 ↦ "x"), as
the second conjunct shows.  The code does append the TaskRecord (named
by the empty string), but its inputs are empty: the guard of source
line 87 reads the Python truthiness of `current_task`, and the empty
string is falsy, so the extraction block is skipped. -/
theorem c5_empty_name_skips_extraction :
    "B" ∈ inputColumnsOf c5sheet ∧
    extractIns (inputColumnsOf c5sheet) 3 taskRest [] = [((⟨2, 3⟩ : Coord), "x")] ∧
    get_excel_data [c5sheet] = [c5record] ∧ c5task.inputs = [] :=
  ⟨by decide, by decide, by decide, rfl⟩

/-- C5 as amended: a non-blank row whose leading cell is bold and not
category-classified, while the current category is truthy, appends to
the last category a new TaskRecord named by the cell's text and
anchored to that row, and sets it as the current task — whether or not
the comments flag is set (the statement places no constraint on
`commentsSection`); input-cell extraction runs for that row provided
the cell's text is non-empty (Python truthiness of the task name), and
is skipped when the text is the empty string. -/
theorem c5_bold_row_appends_task (cols : List String) (acc : SheetAcc)
    (lead : Cell) (rest : List Cell) (cv : String)
    (hv : lead.value = some cv) (hb : lead.bold = true)
    (hf : lead.fillRGB ≠ some "FFFFFF00")
    (hcat : truthy acc.currentCategory = true) :
    (processRow cols acc (lead :: rest)).categories =
      updateLast (fun c => { c with tasks := c.tasks ++
          [{ task := cv, description := "", inputs := if cv ≠ "" then extractIns cols lead.row rest [] else [], descFrags := [], anchorRow := lead.row }] })
        acc.categories ∧
    (processRow cols acc (lead :: rest)).currentTask = some cv :=
  processRow_task_branch cols rest cv hv hb hf hcat

theorem c5_bold_row_appends_task_witness :
    (processRow ["B"] accAfterCatFlag (taskLead :: taskRest)).categories =
      updateLast (fun c => { c with tasks := c.tasks ++
          [{ task := "T", description := "", inputs := if "T" ≠ "" then extractIns ["B"] taskLead.row taskRest [] else [], descFrags := [], anchorRow := taskLead.row }] })
        accAfterCatFlag.categories ∧
    (processRow ["B"] accAfterCatFlag (taskLead :: taskRest)).currentTask = some "T" :=
  c5_bold_row_appends_task ["B"] accAfterCatFlag taskLead taskRest "T"
    rfl rfl (by decide) (by decide)

/-- C6: a column letter is in the detected input-column set of a sheet
iff some cell of the sheet — at any row and column, including the first
row that the later walk skips — holds a value that is an exact match of
one of the four fixed header labels and renders that letter; the result
is duplicate-free, and empty when no cell matches. -/
theorem c6_input_columns_characterisation (s : Sheet) :
    (inputColumnsOf s).Nodup ∧
    (∀ L : String, L ∈ inputColumnsOf s ↔
      ∃ c ∈ s.rows.flatten, (∃ v, c.value = some v ∧ v ∈ labelStrings) ∧
        columnLetter c.col = L) ∧
    ((∀ c ∈ s.rows.flatten, ∀ v : String, c.value = some v → v ∉ labelStrings) →
      inputColumnsOf s = []) := by
  refine ⟨nodup_colScan_foldl _ _ List.nodup_nil, ?_, ?_⟩
  · intro L
    rw [inputColumnsOf, mem_colScan_foldl]
    simp
  · intro hno
    cases hEq : inputColumnsOf s with
    | nil => rfl
    | cons L ls =>
      have hL : L ∈ inputColumnsOf s := by rw [hEq]; exact List.mem_cons_self _ _
      rw [inputColumnsOf, mem_colScan_foldl] at hL
      rcases hL with h | ⟨c, hc, ⟨v, hv, hlab⟩, _⟩
      · simp at h
      · exact absurd hlab (hno c hc v hv)

theorem c6_input_columns_characterisation_witness :
    inputColumnsOf c4sheet = [] :=
  (c6_input_columns_characterisation c4sheet).2.2 (by decide)

/-- C7: when loading the workbook fails, the extraction returns before
any SheetRecord is produced (the result list is empty) and the caller
`main` writes no JSON output (the save step is never reached). -/
theorem c7_load_failure_no_output (e : String) :
    get_excel_data_from_load (Except.error e) = [] ∧
    mainOutput (Except.error e) = none :=
  ⟨rfl, rfl⟩

/-- C8: extraction is deterministic — the embedding is a pure function
of the workbook snapshot, so two runs over the same snapshot produce
identical documents. -/
theorem c8_extraction_deterministic (wb1 wb2 : Workbook) (h : wb1 = wb2) :
    get_excel_data wb1 = get_excel_data wb2 := by
  rw [h]

theorem c8_extraction_deterministic_witness :
    get_excel_data [c4sheet] = get_excel_data [c4sheet] :=
  c8_extraction_deterministic [c4sheet] [c4sheet] rfl

/-- C9: whenever a guard that leads to a `[-1]` access holds, the
accessed lists are non-empty.  First conjunct: in any reachable walk
state, a truthy `current_task` (the guard of the description branch,
and half the guard of the extraction block) implies the categories list
is non-empty and its last category has a non-empty task list.  Second
conjunct: the same holds for the state right after classifying one more
row (the state on which the extraction-block guard of source line 87 is
actually evaluated). -/
theorem c9_last_accesses_in_bounds (cols : List String) (rows : List (List Cell))
    (lead : Cell) (cv : String) :
    (truthy (walkState cols rows).currentTask = true →
      (walkState cols rows).categories ≠ [] ∧
      ∃ c, (walkState cols rows).categories.getLast? = some c ∧ c.tasks ≠ []) ∧
    (truthy (classifyRow (walkState cols rows) lead cv).currentCategory = true ∧
        truthy (classifyRow (walkState cols rows) lead cv).currentTask = true →
      (classifyRow (walkState cols rows) lead cv).categories ≠ [] ∧
      ∃ c, (classifyRow (walkState cols rows) lead cv).categories.getLast? = some c ∧
        c.tasks ≠ []) := by
  have hW := WalkInv_walkState cols rows
  have hC := WalkInv_classifyRow hW lead cv
  constructor
  · intro h
    rcases hW.task_last h with ⟨_, c, hc, t, ht, _⟩
    refine ⟨fun hnil => by rw [hnil] at hc; simp at hc, c, hc,
      fun hnil => by rw [hnil] at ht; simp at ht⟩
  · intro h
    rcases hC.task_last h.2 with ⟨_, c, hc, t, ht, _⟩
    exact ⟨fun hnil => by rw [hnil] at hc; simp at hc, c, hc,
      fun hnil => by rw [hnil] at ht; simp at ht⟩

theorem c9_last_accesses_in_bounds_witness :
    ((walkState (inputColumnsOf c1sheet) (c1sheet.rows.drop 1)).categories ≠ [] ∧
      ∃ c, (walkState (inputColumnsOf c1sheet) (c1sheet.rows.drop 1)).categories.getLast? = some c ∧
        c.tasks ≠ []) ∧
    ((classifyRow (walkState (inputColumnsOf c1sheet) (c1sheet.rows.drop 1)) c9lead "T2").categories ≠ [] ∧
      ∃ c, (classifyRow (walkState (inputColumnsOf c1sheet) (c1sheet.rows.drop 1)) c9lead "T2").categories.getLast? = some c ∧
        c.tasks ≠ []) :=
  ⟨(c9_last_accesses_in_bounds (inputColumnsOf c1sheet) (c1sheet.rows.drop 1) c9lead "T2").1
      (by decide),
   (c9_last_accesses_in_bounds (inputColumnsOf c1sheet) (c1sheet.rows.drop 1) c9lead "T2").2
      ⟨by decide, by decide⟩⟩

/-- C10: the embedded extraction is total (the source catches every
load exception), and on any load failure it returns the empty list —
the very value a successfully loaded workbook with zero worksheets
yields — so at this interface a load failure is indistinguishable from
a valid empty workbook, and the caller `main` treats both as failure
and writes nothing. -/
theorem c10_load_failure_empty (e : String) :
    get_excel_data_from_load (Except.error e) = [] ∧
    get_excel_data_from_load (Except.ok ([] : Workbook)) = [] ∧
    mainOutput (Except.error e) = none ∧
    mainOutput (Except.ok ([] : Workbook)) = none :=
  ⟨rfl, rfl, rfl, rfl⟩
